import Mathlib

/-!
Verification of the GOFA orchestration glue: the multi-task dataset wrapper
(`tasks/task_wrapper.py`) and the experiment-config / training-module template
(`gp/lightning/module_template.py`).

The Python code is shallowly embedded: numpy arrays become `List Nat`,
per-task datasets become `List α`, Python exceptions become an `Except PyErr`
result, and in-place tensor mutation of sample labels becomes a pure `map`.
-/

/-- Python exceptions relevant to the embedded code paths. -/
inductive PyErr where
  | runtimeError (msg : String)
  | assertionError
  | typeError (msg : String)
  | indexError (msg : String)
  | notImplementedError (msg : String)
  | otherError (msg : String)
  deriving DecidableEq, Repr

/-! ## Index flattening of `GOFATaskWrapper.__init__`

`task_sizes = np.array([len(t) for t in task_list])`
`ind2task = np.arange(num_tasks).repeat(task_sizes)`
`sample_ind = np.concatenate([np.arange(size) for size in task_sizes])`
`size_seg = np.cumsum(task_sizes)`
`data_start_index = np.r_[0, size_seg[:-1]]`
-/

/-- `np.arange(num_tasks).repeat(task_sizes)`: task index `i` repeated
`task_sizes[i]` times, concatenated in order. -/
def ind2task (sizes : List Nat) : List Nat :=
  (((List.range sizes.length).zip sizes).map (fun p => List.replicate p.2 p.1)).flatten

/-- `np.concatenate([np.arange(size) for size in task_sizes])`. -/
def sample_ind (sizes : List Nat) : List Nat :=
  (sizes.map (fun s => List.range s)).flatten

/-- `np.cumsum`. -/
def cumsum : List Nat → List Nat
  | [] => []
  | x :: xs => x :: (cumsum xs).map (fun y => x + y)

/-- `np.r_[0, size_seg[:-1]]`: cumulative sums shifted right with a leading 0. -/
def data_start_index (sizes : List Nat) : List Nat :=
  0 :: (cumsum sizes).dropLast

/-- Recursive characterization of `ind2task` lookup (proof helper). -/
def taskOf (sizes : List Nat) (g : Nat) : Nat :=
  match sizes with
  | [] => 0
  | s :: rest => if g < s then 0 else taskOf rest (g - s) + 1

/-- Recursive characterization of `sample_ind` lookup (proof helper). -/
def localOf (sizes : List Nat) (g : Nat) : Nat :=
  match sizes with
  | [] => 0
  | s :: rest => if g < s then g else localOf rest (g - s)

theorem ind2task_cons (s : Nat) (rest : List Nat) :
    ind2task (s :: rest) = List.replicate s 0 ++ (ind2task rest).map (· + 1) := by
  unfold ind2task
  simp [List.range_succ_eq_map, List.zip_map_left, List.map_flatten, Function.comp,
    List.map_replicate]
  congr 1
  apply List.map_congr_left
  intro p _
  simp [Prod.map, List.map_replicate, Nat.succ_eq_add_one]

theorem sample_ind_cons (s : Nat) (rest : List Nat) :
    sample_ind (s :: rest) = List.range s ++ sample_ind rest := by
  simp [sample_ind]

theorem ind2task_length (sizes : List Nat) : (ind2task sizes).length = sizes.sum := by
  induction sizes with
  | nil => simp [ind2task]
  | cons s rest ih => simp [ind2task_cons, ih]

theorem sample_ind_length (sizes : List Nat) : (sample_ind sizes).length = sizes.sum := by
  induction sizes with
  | nil => simp [sample_ind]
  | cons s rest ih => simp [sample_ind_cons, ih]

theorem getD_append_lt {α : Type} (l l' : List α) (d : α) (i : Nat) (h : i < l.length) :
    (l ++ l').getD i d = l.getD i d := by
  induction l generalizing i with
  | nil => simp at h
  | cons a t ih =>
    cases i with
    | zero => simp
    | succ j =>
      simp only [List.cons_append, List.getD_cons_succ]
      exact ih j (by simpa using h)

theorem getD_append_ge {α : Type} (l l' : List α) (d : α) (i : Nat) (h : l.length ≤ i) :
    (l ++ l').getD i d = l'.getD (i - l.length) d := by
  induction l generalizing i with
  | nil => simp
  | cons a t ih =>
    cases i with
    | zero => simp at h
    | succ j =>
      simp only [List.cons_append, List.getD_cons_succ, List.length_cons]
      rw [ih j (by simpa using h)]
      simp [Nat.succ_sub_succ]

theorem getD_replicate_self {α : Type} (n i : Nat) (a : α) :
    (List.replicate n a).getD i a = a := by
  induction n generalizing i with
  | zero => simp [List.getD]
  | succ m ih =>
    cases i with
    | zero => simp [List.replicate]
    | succ j =>
      simp only [List.replicate, List.getD_cons_succ]
      exact ih j

theorem getD_map_succ (l : List Nat) (i : Nat) (h : i < l.length) :
    (l.map (· + 1)).getD i 0 = l.getD i 0 + 1 := by
  induction l generalizing i with
  | nil => simp at h
  | cons a t ih =>
    cases i with
    | zero => simp
    | succ j =>
      simp only [List.map_cons, List.getD_cons_succ]
      exact ih j (by simpa using h)

theorem getD_range (s i : Nat) (h : i < s) : (List.range s).getD i 0 = i := by
  rw [List.getD_eq_getElem _ _ (by simpa using h)]
  simp

/-- Bridge: the `ind2task` array lookup agrees with the recursive `taskOf`. -/
theorem ind2task_getD (sizes : List Nat) (g : Nat) (h : g < sizes.sum) :
    (ind2task sizes).getD g 0 = taskOf sizes g := by
  induction sizes generalizing g with
  | nil => simp at h
  | cons s rest ih =>
    rw [ind2task_cons]
    by_cases hg : g < s
    · rw [getD_append_lt _ _ _ _ (by simpa using hg)]
      simp [taskOf, hg, getD_replicate_self]
    · push_neg at hg
      rw [getD_append_ge _ _ _ _ (by simpa using hg)]
      have hrest : g - s < rest.sum := by
        simp only [List.sum_cons] at h
        omega
      rw [List.length_replicate, getD_map_succ _ _ (by rw [ind2task_length]; exact hrest),
        ih _ hrest]
      simp [taskOf, Nat.not_lt.mpr hg]

/-- Bridge: the `sample_ind` array lookup agrees with the recursive `localOf`. -/
theorem sample_ind_getD (sizes : List Nat) (g : Nat) (h : g < sizes.sum) :
    (sample_ind sizes).getD g 0 = localOf sizes g := by
  induction sizes generalizing g with
  | nil => simp at h
  | cons s rest ih =>
    rw [sample_ind_cons]
    by_cases hg : g < s
    · rw [getD_append_lt _ _ _ _ (by simpa using hg)]
      simp [localOf, hg, getD_range s g hg]
    · push_neg at hg
      rw [getD_append_ge _ _ _ _ (by simpa using hg)]
      have hrest : g - s < rest.sum := by
        simp only [List.sum_cons] at h
        omega
      rw [List.length_range, ih _ hrest]
      simp [localOf, Nat.not_lt.mpr hg]

theorem taskOf_lt_length (sizes : List Nat) (g : Nat) (h : g < sizes.sum) :
    taskOf sizes g < sizes.length := by
  induction sizes generalizing g with
  | nil => simp at h
  | cons s rest ih =>
    by_cases hg : g < s
    · simp [taskOf, hg]
    · push_neg at hg
      have hrest : g - s < rest.sum := by
        simp only [List.sum_cons] at h
        omega
      simp only [taskOf, Nat.not_lt.mpr hg, if_false, List.length_cons]
      exact Nat.succ_lt_succ (ih _ hrest)

theorem localOf_lt (sizes : List Nat) (g : Nat) (h : g < sizes.sum) :
    localOf sizes g < sizes.getD (taskOf sizes g) 0 := by
  induction sizes generalizing g with
  | nil => simp at h
  | cons s rest ih =>
    by_cases hg : g < s
    · simp [taskOf, localOf, hg]
    · push_neg at hg
      have hrest : g - s < rest.sum := by
        simp only [List.sum_cons] at h
        omega
      simp only [taskOf, localOf, Nat.not_lt.mpr hg, if_false, List.getD_cons_succ]
      exact ih _ hrest

theorem take_sum_add_localOf (sizes : List Nat) (g : Nat) (h : g < sizes.sum) :
    (sizes.take (taskOf sizes g)).sum + localOf sizes g = g := by
  induction sizes generalizing g with
  | nil => simp at h
  | cons s rest ih =>
    by_cases hg : g < s
    · simp [taskOf, localOf, hg]
    · push_neg at hg
      have hrest : g - s < rest.sum := by
        simp only [List.sum_cons] at h
        omega
      simp only [taskOf, localOf, Nat.not_lt.mpr hg, if_false, List.take_succ_cons,
        List.sum_cons]
      have := ih _ hrest
      omega

theorem taskOf_take_sum_add (sizes : List Nat) (t j : Nat) (ht : t < sizes.length)
    (hj : j < sizes.getD t 0) : taskOf sizes ((sizes.take t).sum + j) = t := by
  induction sizes generalizing t with
  | nil => simp at ht
  | cons s rest ih =>
    cases t with
    | zero =>
      simp only [List.getD_cons_zero] at hj
      simp [taskOf, hj]
    | succ u =>
      simp only [List.getD_cons_succ] at hj
      simp only [List.take_succ_cons, List.sum_cons, taskOf]
      have hge : ¬ s + (rest.take u).sum + j < s := by omega
      rw [if_neg hge]
      have : s + (rest.take u).sum + j - s = (rest.take u).sum + j := by omega
      rw [this, ih u (by simpa using ht) hj]

theorem localOf_take_sum_add (sizes : List Nat) (t j : Nat) (ht : t < sizes.length)
    (hj : j < sizes.getD t 0) : localOf sizes ((sizes.take t).sum + j) = j := by
  induction sizes generalizing t with
  | nil => simp at ht
  | cons s rest ih =>
    cases t with
    | zero =>
      simp only [List.getD_cons_zero] at hj
      simp [localOf, hj]
    | succ u =>
      simp only [List.getD_cons_succ] at hj
      simp only [List.take_succ_cons, List.sum_cons, localOf]
      have hge : ¬ s + (rest.take u).sum + j < s := by omega
      rw [if_neg hge]
      have : s + (rest.take u).sum + j - s = (rest.take u).sum + j := by omega
      rw [this, ih u (by simpa using ht) hj]

theorem take_sum_add_lt (sizes : List Nat) (t j : Nat) (ht : t < sizes.length)
    (hj : j < sizes.getD t 0) : (sizes.take t).sum + j < sizes.sum := by
  induction sizes generalizing t with
  | nil => simp at ht
  | cons s rest ih =>
    cases t with
    | zero =>
      simp only [List.getD_cons_zero] at hj
      simp only [List.take_zero, List.sum_nil, List.sum_cons, Nat.zero_add]
      omega
    | succ u =>
      simp only [List.getD_cons_succ] at hj
      simp only [List.take_succ_cons, List.sum_cons]
      have := ih u (by simpa using ht) hj
      omega

theorem getD_map_add (x : Nat) (l : List Nat) (i : Nat) (h : i < l.length) :
    (l.map (fun y => x + y)).getD i 0 = x + l.getD i 0 := by
  induction l generalizing i with
  | nil => simp at h
  | cons a t ih =>
    cases i with
    | zero => simp
    | succ j =>
      simp only [List.map_cons, List.getD_cons_succ]
      exact ih j (by simpa using h)

theorem getD_dropLast {α : Type} (l : List α) (d : α) (i : Nat) (h : i < l.length - 1) :
    l.dropLast.getD i d = l.getD i d := by
  have hi : i < l.dropLast.length := by
    rw [List.length_dropLast]
    exact h
  rw [List.getD_eq_getElem _ _ hi, List.getD_eq_getElem _ _ (by rw [List.length_dropLast] at hi; omega)]
  exact List.getElem_dropLast l i hi

theorem cumsum_length (sizes : List Nat) : (cumsum sizes).length = sizes.length := by
  induction sizes with
  | nil => simp [cumsum]
  | cons s rest ih => simp [cumsum, ih]

theorem cumsum_getD (sizes : List Nat) (i : Nat) (h : i < sizes.length) :
    (cumsum sizes).getD i 0 = (sizes.take (i + 1)).sum := by
  induction sizes generalizing i with
  | nil => simp at h
  | cons s rest ih =>
    cases i with
    | zero => simp [cumsum]
    | succ j =>
      simp only [cumsum, List.getD_cons_succ, List.take_succ_cons, List.sum_cons]
      have hj : j < rest.length := by simpa using h
      rw [getD_map_add _ _ _ (by rw [cumsum_length]; exact hj), ih j hj]

theorem data_start_index_getD (sizes : List Nat) (t : Nat) (h : t < sizes.length) :
    (data_start_index sizes).getD t 0 = (sizes.take t).sum := by
  cases t with
  | zero => simp [data_start_index]
  | succ u =>
    simp only [data_start_index, List.getD_cons_succ]
    have hu : u < (cumsum sizes).length - 1 := by
      rw [cumsum_length]
      omega
    rw [getD_dropLast _ _ _ hu, cumsum_getD _ _ (by rw [cumsum_length] at hu; omega)]

/-! ## The wrapper object

`GOFATaskWrapper` holds the task list (each task embedded as the list of its
samples) and the derived index arrays computed in `__init__`. -/

structure GOFAWrapper (α : Type) where
  task_list : List (List α)
  task_sizes : List Nat
  ind2task_arr : List Nat
  sample_ind_arr : List Nat
  size_seg : List Nat
  data_start_arr : List Nat

/-- Lines 63-67 of `__init__`: derive the flat-index arrays from the tasks. -/
def mkWrapper {α : Type} (tasks : List (List α)) : GOFAWrapper α :=
  let sizes := tasks.map List.length
  { task_list := tasks
    task_sizes := sizes
    ind2task_arr := ind2task sizes
    sample_ind_arr := sample_ind sizes
    size_seg := cumsum sizes
    data_start_arr := data_start_index sizes }

/-- `__len__`: `np.sum(self.task_sizes)`. -/
def len_wrapper {α : Type} (w : GOFAWrapper α) : Nat :=
  w.task_sizes.sum

/-- `__getitem__`: look up the owning task and the local sample index, return
the sample together with the `task_idx` attribute set on it. -/
def getitem {α : Type} (w : GOFAWrapper α) (dflt : α) (index : Nat) : α × Nat :=
  let task_ind := w.ind2task_arr.getD index 0
  let task := w.task_list.getD task_ind []
  let data := task.getD (w.sample_ind_arr.getD index 0) dflt
  (data, task_ind)

/-- Reads performed against the wrapper; neither `__getitem__` nor `collate`
assigns to any attribute of `self`, so each operation leaves the state as is. -/
inductive WrapperOp where
  | getItemOp (index : Nat)
  | collateOp (indices : List Nat)

/-- State transition of one wrapper operation: both operations only read the
wrapper (they build and return data), so the state passes through unchanged. -/
def stepOp {α : Type} (w : GOFAWrapper α) : WrapperOp → GOFAWrapper α
  | WrapperOp.getItemOp _ => w
  | WrapperOp.collateOp _ => w

def runOps {α : Type} (w : GOFAWrapper α) (ops : List WrapperOp) : GOFAWrapper α :=
  ops.foldl stepOp w

/-- Indexing the concatenation of the tasks equals indexing the owning task at
the local offset. -/
theorem flatten_getD {α : Type} (tasks : List (List α)) (dflt : α) (g : Nat)
    (h : g < (tasks.map List.length).sum) :
    tasks.flatten.getD g dflt =
      (tasks.getD (taskOf (tasks.map List.length) g) []).getD
        (localOf (tasks.map List.length) g) dflt := by
  induction tasks generalizing g with
  | nil => simp at h
  | cons l rest ih =>
    by_cases hg : g < l.length
    · simp only [List.flatten_cons, List.map_cons, taskOf, localOf, hg, if_true,
        List.getD_cons_zero]
      exact getD_append_lt _ _ _ _ hg
    · push_neg at hg
      have hrest : g - l.length < (rest.map List.length).sum := by
        simp only [List.map_cons, List.sum_cons] at h
        omega
      simp only [List.flatten_cons, List.map_cons, taskOf, localOf, Nat.not_lt.mpr hg,
        if_false, List.getD_cons_succ]
      rw [getD_append_ge _ _ _ _ hg]
      exact ih _ hrest

theorem runOps_eq {α : Type} (w : GOFAWrapper α) (ops : List WrapperOp) :
    runOps w ops = w := by
  induction ops generalizing w with
  | nil => rfl
  | cons op rest ih =>
    cases op with
    | getItemOp i => exact ih w
    | collateOp l => exact ih w

/-- The flat-to-pair map of the wrapper: global index `g` to
`(ind2task[g], sample_ind[g])`. -/
def flat_to_pair (sizes : List Nat) (g : Nat) : Nat × Nat :=
  ((ind2task sizes).getD g 0, (sample_ind sizes).getD g 0)

/-- The inverse pair-to-flat map: `(t, j)` to `data_start_index[t] + j`. -/
def pair_to_flat (sizes : List Nat) (p : Nat × Nat) : Nat :=
  (sizes.take p.1).sum + p.2

/-- C1: for every array of per-task sizes built in `GOFATaskWrapper.__init__`,
the map sending a global index `g < sum(task_sizes)` to the pair
`(ind2task[g], sample_ind[g])` is a bijection onto the set of pairs `(t, j)`
with `t < num_tasks` and `j < task_sizes[t]`. -/
theorem c1_flat_index_bijection (sizes : List Nat) :
    Set.BijOn (flat_to_pair sizes) {g : Nat | g < sizes.sum}
      {p : Nat × Nat | p.1 < sizes.length ∧ p.2 < sizes.getD p.1 0} := by
  have hleft : Set.LeftInvOn (pair_to_flat sizes) (flat_to_pair sizes)
      {g : Nat | g < sizes.sum} := by
    intro g hg
    simp only [Set.mem_setOf_eq] at hg
    simp only [flat_to_pair, pair_to_flat, ind2task_getD sizes g hg,
      sample_ind_getD sizes g hg]
    exact take_sum_add_localOf sizes g hg
  have hright : Set.RightInvOn (pair_to_flat sizes) (flat_to_pair sizes)
      {p : Nat × Nat | p.1 < sizes.length ∧ p.2 < sizes.getD p.1 0} := by
    intro p hp
    simp only [Set.mem_setOf_eq] at hp
    have hlt := take_sum_add_lt sizes p.1 p.2 hp.1 hp.2
    simp only [flat_to_pair, pair_to_flat, ind2task_getD sizes _ hlt,
      sample_ind_getD sizes _ hlt]
    rw [taskOf_take_sum_add sizes p.1 p.2 hp.1 hp.2,
      localOf_take_sum_add sizes p.1 p.2 hp.1 hp.2]
  have hmap : Set.MapsTo (flat_to_pair sizes) {g : Nat | g < sizes.sum}
      {p : Nat × Nat | p.1 < sizes.length ∧ p.2 < sizes.getD p.1 0} := by
    intro g hg
    simp only [Set.mem_setOf_eq] at hg
    simp only [Set.mem_setOf_eq, flat_to_pair, ind2task_getD sizes g hg,
      sample_ind_getD sizes g hg]
    exact ⟨taskOf_lt_length sizes g hg, localOf_lt sizes g hg⟩
  have hmap' : Set.MapsTo (pair_to_flat sizes)
      {p : Nat × Nat | p.1 < sizes.length ∧ p.2 < sizes.getD p.1 0}
      {g : Nat | g < sizes.sum} := by
    intro p hp
    simp only [Set.mem_setOf_eq] at hp
    simp only [Set.mem_setOf_eq, pair_to_flat]
    exact take_sum_add_lt sizes p.1 p.2 hp.1 hp.2
  exact Set.InvOn.bijOn ⟨hleft, hright⟩ hmap hmap'

/-- C4: `len(wrapper)` equals the sum of `task_sizes`, which equals the sum of
the per-task dataset lengths, and the equality persists across any sequence of
`__getitem__`/`collate` calls (neither operation writes to the wrapper). -/
theorem c4_len_eq_sum_task_sizes (α : Type) (tasks : List (List α))
    (ops : List WrapperOp) :
    len_wrapper (runOps (mkWrapper tasks) ops) =
      (runOps (mkWrapper tasks) ops).task_sizes.sum ∧
    len_wrapper (runOps (mkWrapper tasks) ops) = (tasks.map List.length).sum := by
  rw [runOps_eq]
  exact ⟨rfl, rfl⟩

/-- C5: for every global index `g < len(wrapper)`, `__getitem__(g)` returns the
sample of task `ind2task[g]` at local index `sample_ind[g]`, which equals
`g - data_start_index[ind2task[g]]`; the wrapper therefore behaves as the
concatenation of the per-task datasets. -/
theorem c5_getitem_concatenation (α : Type) (tasks : List (List α)) (dflt : α)
    (g : Nat) (h : g < len_wrapper (mkWrapper tasks)) :
    (getitem (mkWrapper tasks) dflt g).1 = tasks.flatten.getD g dflt ∧
    (getitem (mkWrapper tasks) dflt g).2 = (mkWrapper tasks).ind2task_arr.getD g 0 ∧
    (mkWrapper tasks).sample_ind_arr.getD g 0 =
      g - (mkWrapper tasks).data_start_arr.getD
        ((mkWrapper tasks).ind2task_arr.getD g 0) 0 := by
  have hsum : g < (tasks.map List.length).sum := by
    simpa [len_wrapper, mkWrapper] using h
  refine ⟨?_, rfl, ?_⟩
  · show (tasks.getD ((ind2task (tasks.map List.length)).getD g 0) []).getD
      ((sample_ind (tasks.map List.length)).getD g 0) dflt = tasks.flatten.getD g dflt
    rw [ind2task_getD _ _ hsum, sample_ind_getD _ _ hsum, flatten_getD _ _ _ hsum]
  · show (sample_ind (tasks.map List.length)).getD g 0 =
      g - (data_start_index (tasks.map List.length)).getD
        ((ind2task (tasks.map List.length)).getD g 0) 0
    rw [ind2task_getD _ _ hsum, sample_ind_getD _ _ hsum,
      data_start_index_getD _ _ (taskOf_lt_length _ _ hsum)]
    have := take_sum_add_localOf (tasks.map List.length) g hsum
    omega

/-- Witness for C5 at the concrete task list `[[10, 20], [30]]` and `g = 2`. -/
theorem c5_getitem_concatenation_witness :
    2 < len_wrapper (mkWrapper [[10, 20], [30]]) ∧
    ((getitem (mkWrapper [[10, 20], [30]]) 0 2).1 =
        ([[10, 20], [30]] : List (List Nat)).flatten.getD 2 0 ∧
      (getitem (mkWrapper [[10, 20], [30]]) 0 2).2 =
        (mkWrapper [[10, 20], [30]]).ind2task_arr.getD 2 0 ∧
      (mkWrapper [[10, 20], [30]]).sample_ind_arr.getD 2 0 =
        2 - (mkWrapper [[10, 20], [30]]).data_start_arr.getD
          ((mkWrapper [[10, 20], [30]]).ind2task_arr.getD 2 0) 0) :=
  ⟨by decide, c5_getitem_concatenation Nat [[10, 20], [30]] 0 2 (by decide)⟩

/-! ## `GOFATaskWrapper.__parse_input_args__`

Python values that flow through the broadcaster: scalars (callables, strings,
numbers...), `None`, and (possibly nested) lists. -/

inductive PyVal where
  | atom (tag : String)
  | pynone
  | pylist (xs : List PyVal)

/-- `values is None`. -/
def isNone : PyVal → Bool
  | PyVal.pynone => true
  | _ => false

/-- `__parse_input_args__(values, num_task, is_list, default_none)`.

With `default_none` a `None` is broadcast as-is; with `is_list` the code probes
`values[0]` (a `TypeError` on a non-subscriptable value, an `IndexError` on an
empty list) and length-checks `values` only when that first element is itself a
list; otherwise `values` itself is length-checked when it is a list. The
`assert` on a length mismatch is an `AssertionError`. -/
def parse_input_args (values : PyVal) (num_task : Nat) (is_list : Bool)
    (default_none : Bool) : Except PyErr (List PyVal) :=
  if default_none && isNone values then
    Except.ok (List.replicate num_task PyVal.pynone)
  else if is_list then
    match values with
    | PyVal.pylist [] => Except.error (PyErr.indexError "list index out of range")
    | PyVal.pylist (x :: rest) =>
      match x with
      | PyVal.pylist _ =>
        if (x :: rest).length = num_task then Except.ok (x :: rest)
        else Except.error PyErr.assertionError
      | _ => Except.ok (List.replicate num_task (PyVal.pylist (x :: rest)))
    | _ => Except.error (PyErr.typeError "object is not subscriptable")
  else
    match values with
    | PyVal.pylist xs =>
      if xs.length = num_task then Except.ok xs else Except.error PyErr.assertionError
    | v => Except.ok (List.replicate num_task v)

/-- C2 counterexample: `post_funcs=[f1, f2]` (a flat list of two callables) with
`num_tasks = 3` flows through `__parse_input_args__` with `is_list=True`; the
list has length 2 ≠ 3, yet no error is raised — the whole list is broadcast. -/
theorem c2_parse_args_counterexample :
    parse_input_args (PyVal.pylist [PyVal.atom "f1", PyVal.atom "f2"]) 3 true false =
      Except.ok (List.replicate 3 (PyVal.pylist [PyVal.atom "f1", PyVal.atom "f2"])) ∧
    ([PyVal.atom "f1", PyVal.atom "f2"] : List PyVal).length ≠ 3 := by
  constructor
  · rfl
  · decide

/-- C2 amended: with `is_list=False` a non-list value is replicated to every
task and a list of mismatched length raises; with `is_list=True` the
distinction is made on the first element: a list of lists of mismatched length
raises, while a list whose first element is not a list is broadcast whole
without a length check; a `None` under `default_none` is broadcast as `None`. -/
theorem c2_parse_args_amended (tag t : String) (xs rest ys : List PyVal)
    (n : Nat) (dn il : Bool) :
    parse_input_args (PyVal.atom tag) n false dn =
      Except.ok (List.replicate n (PyVal.atom tag)) ∧
    (xs.length ≠ n → parse_input_args (PyVal.pylist xs) n false dn =
      Except.error PyErr.assertionError) ∧
    (xs.length = n → parse_input_args (PyVal.pylist xs) n false dn = Except.ok xs) ∧
    ((PyVal.pylist ys :: rest).length ≠ n →
      parse_input_args (PyVal.pylist (PyVal.pylist ys :: rest)) n true dn =
        Except.error PyErr.assertionError) ∧
    parse_input_args (PyVal.pylist (PyVal.atom t :: rest)) n true dn =
      Except.ok (List.replicate n (PyVal.pylist (PyVal.atom t :: rest))) ∧
    parse_input_args PyVal.pynone n il true =
      Except.ok (List.replicate n PyVal.pynone) := by
  refine ⟨?_, ?_, ?_, ?_, ?_, ?_⟩
  · simp [parse_input_args, isNone]
  · intro h
    simp [parse_input_args, isNone, h]
  · intro h
    simp [parse_input_args, isNone, h]
  · intro h
    simp only [List.length_cons] at h
    simp [parse_input_args, isNone, h]
  · simp [parse_input_args, isNone]
  · simp [parse_input_args, isNone]

/-- Witness for C2 amended at concrete inputs: a mismatched two-element list
raises against three tasks, and a scalar broadcasts to two tasks. -/
theorem c2_parse_args_amended_witness :
    parse_input_args (PyVal.atom "a") 3 false false =
      Except.ok (List.replicate 3 (PyVal.atom "a")) ∧
    parse_input_args (PyVal.pylist [PyVal.atom "a", PyVal.atom "b"]) 3 false false =
      Except.error PyErr.assertionError ∧
    parse_input_args
        (PyVal.pylist [PyVal.pylist [PyVal.atom "a"], PyVal.pylist [PyVal.atom "b"]])
        3 true false =
      Except.error PyErr.assertionError :=
  ⟨(c2_parse_args_amended "a" "t" [PyVal.atom "a", PyVal.atom "b"] []
      [PyVal.atom "a"] 3 false false).1,
    (c2_parse_args_amended "a" "t" [PyVal.atom "a", PyVal.atom "b"] []
      [PyVal.atom "a"] 3 false false).2.1 (by decide),
    (c2_parse_args_amended "a" "t" [PyVal.atom "a", PyVal.atom "b"]
      [PyVal.pylist [PyVal.atom "b"]] [PyVal.atom "a"] 3 false false).2.2.2.1
      (by simp)⟩

/-! ## `GOFATaskWrapper.collate`

A sample's label `y` is a tensor; the collate only inspects the concrete class
of `y` (`torch.FloatTensor` / `torch.IntTensor` / `torch.LongTensor`) and
possibly calls `.float()` on it, so a tensor is embedded as its dtype plus its
payload. -/

inductive DType where
  | float32
  | int32
  | int64
  | other
  deriving DecidableEq

structure PTensor where
  dtype : DType
  data : List Int
  deriving DecidableEq

/-- `.float()`: cast to float32, keeping the values. -/
def tensor_float (t : PTensor) : PTensor :=
  { dtype := DType.float32, data := t.data }

/-- A `TAGData` sample as far as `collate` observes it: its label `y` and the
rest of its fields. -/
structure TAGSample where
  y : PTensor
  payload : Nat
  deriving DecidableEq

/-- `data.y = data.y.float()` applied to one sample. -/
def float_y (d : TAGSample) : TAGSample :=
  { d with y := tensor_float d.y }

/-- `GOFATaskWrapper.collate`: scan the batch for float and int/long labels;
if both occur, cast every label to float; then delegate to the first task's
collate function (`self.task_list[0].collate`, external and abstracted as
`delegate`). -/
def collate (β : Type) (delegate : List TAGSample → β) (batch : List TAGSample) : β :=
  let float_flag := batch.any (fun d => d.y.dtype == DType.float32)
  let int_flag :=
    batch.any (fun d => d.y.dtype == DType.int32 || d.y.dtype == DType.int64)
  let batch := if float_flag && int_flag then batch.map float_y else batch
  delegate batch

/-- C8: a batch mixing float labels with int/long labels has every label cast
to float before delegation; an all-float or all-int batch is delegated
unmodified. -/
theorem c8_collate_label_promotion (β : Type) (delegate : List TAGSample → β)
    (batch : List TAGSample) :
    ((∃ d ∈ batch, d.y.dtype = DType.float32) →
      (∃ d ∈ batch, d.y.dtype = DType.int32 ∨ d.y.dtype = DType.int64) →
      collate β delegate batch = delegate (batch.map float_y)) ∧
    ((∀ d ∈ batch, d.y.dtype = DType.float32) →
      collate β delegate batch = delegate batch) ∧
    ((∀ d ∈ batch, d.y.dtype = DType.int32 ∨ d.y.dtype = DType.int64) →
      collate β delegate batch = delegate batch) := by
  refine ⟨?_, ?_, ?_⟩
  · intro hf hi
    obtain ⟨df, hdf, hdtf⟩ := hf
    obtain ⟨di, hdi, hdti⟩ := hi
    have h1 : batch.any (fun d => d.y.dtype == DType.float32) = true := by
      rw [List.any_eq_true]
      exact ⟨df, hdf, by simp [hdtf]⟩
    have h2 : batch.any
        (fun d => d.y.dtype == DType.int32 || d.y.dtype == DType.int64) = true := by
      rw [List.any_eq_true]
      refine ⟨di, hdi, ?_⟩
      rcases hdti with h | h <;> simp [h]
    simp [collate, h1, h2]
  · intro hall
    have h2 : batch.any
        (fun d => d.y.dtype == DType.int32 || d.y.dtype == DType.int64) = false := by
      rw [List.any_eq_false]
      intro d hd
      simp [hall d hd]
    simp [collate, h2]
  · intro hall
    have h1 : batch.any (fun d => d.y.dtype == DType.float32) = false := by
      rw [List.any_eq_false]
      intro d hd
      rcases hall d hd with h | h <;> simp [h]
    simp [collate, h1]

/-- Witness for C8: a concrete float/long mixed batch is promoted, a concrete
all-long batch is passed through. -/
theorem c8_collate_label_promotion_witness :
    collate (List TAGSample) (fun b => b)
        [⟨⟨DType.float32, [1]⟩, 0⟩, ⟨⟨DType.int64, [2]⟩, 1⟩] =
      ([⟨⟨DType.float32, [1]⟩, 0⟩, ⟨⟨DType.int64, [2]⟩, 1⟩] :
        List TAGSample).map float_y ∧
    collate (List TAGSample) (fun b => b) [⟨⟨DType.int64, [2]⟩, 1⟩] =
      [⟨⟨DType.int64, [2]⟩, 1⟩] :=
  ⟨(c8_collate_label_promotion (List TAGSample) (fun b => b)
      [⟨⟨DType.float32, [1]⟩, 0⟩, ⟨⟨DType.int64, [2]⟩, 1⟩]).1
      (by decide) (by decide),
    (c8_collate_label_promotion (List TAGSample) (fun b => b)
      [⟨⟨DType.int64, [2]⟩, 1⟩]).2.2 (by decide)⟩

/-! ## `GOFAPretrainTaskWrapper.__get_pretrain_task__` -/

def graph_pretrain_names : List String := ["ultrachat200k"]

def node_pretrain_names : List String :=
  ["mag240m", "arxiv", "products", "wikics", "cora", "cora_node", "pubmed",
    "pubmed_node"]

/-- The task object built for one dataset name (the external task classes are
abstracted to which constructor ran and on which dataset). -/
inductive PretrainTask where
  | graphTask (name : String)
  | nodeTask (name : String)
  deriving DecidableEq

/-- Dispatch of `__get_pretrain_task__` on the dataset name: graph pretrain
for `ultrachat200k`, node pretrain for the recognized node datasets,
`NotImplementedError` otherwise. -/
def get_pretrain_task (name : String) : Except PyErr PretrainTask :=
  if name ∈ graph_pretrain_names then Except.ok (PretrainTask.graphTask name)
  else if name ∈ node_pretrain_names then Except.ok (PretrainTask.nodeTask name)
  else Except.error (PyErr.notImplementedError
    ("Pretrain task for the dataset " ++ name ++ " is not implemented yet."))

/-- `__get_task_list__`: build the task for each name in order; the first
exception aborts construction of the wrapper. -/
def get_task_list (names : List String) : Except PyErr (List PretrainTask) :=
  match names with
  | [] => Except.ok []
  | n :: rest =>
    match get_pretrain_task n with
    | Except.error e => Except.error e
    | Except.ok t =>
      match get_task_list rest with
      | Except.error e => Except.error e
      | Except.ok ts => Except.ok (t :: ts)

/-- C9: any dataset name outside the two recognized sets makes
`__get_pretrain_task__` raise `NotImplementedError`, and therefore the
construction of a `GOFAPretrainTaskWrapper` whose task names include it
fails. -/
theorem c9_unrecognized_name_raises (name : String)
    (h1 : name ∉ graph_pretrain_names) (h2 : name ∉ node_pretrain_names) :
    get_pretrain_task name =
      Except.error (PyErr.notImplementedError
        ("Pretrain task for the dataset " ++ name ++ " is not implemented yet.")) ∧
    ∀ pre post : List String, ∃ e : PyErr,
      get_task_list (pre ++ name :: post) = Except.error e := by
  have hmain : get_pretrain_task name =
      Except.error (PyErr.notImplementedError
        ("Pretrain task for the dataset " ++ name ++ " is not implemented yet.")) := by
    simp [get_pretrain_task, h1, h2]
  refine ⟨hmain, ?_⟩
  intro pre post
  induction pre with
  | nil =>
    refine ⟨PyErr.notImplementedError
      ("Pretrain task for the dataset " ++ name ++ " is not implemented yet."), ?_⟩
    simp [get_task_list, hmain]
  | cons p ps ih =>
    obtain ⟨e, he⟩ := ih
    cases hp : get_pretrain_task p with
    | error e' => exact ⟨e', by simp [get_task_list, hp]⟩
    | ok t =>
      refine ⟨e, ?_⟩
      simp [get_task_list, hp, he]

/-- Witness for C9 at the unrecognized dataset name `"foo"`. -/
theorem c9_unrecognized_name_raises_witness :
    ("foo" ∉ graph_pretrain_names ∧ "foo" ∉ node_pretrain_names) ∧
    (get_pretrain_task "foo" =
      Except.error (PyErr.notImplementedError
        ("Pretrain task for the dataset " ++ "foo" ++ " is not implemented yet.")) ∧
    ∀ pre post : List String, ∃ e : PyErr,
      get_task_list (pre ++ "foo" :: post) = Except.error e) :=
  ⟨⟨by decide, by decide⟩,
    c9_unrecognized_name_raises "foo" (by decide) (by decide)⟩

/-! ## `ExpConfig` and `BaseTemplate` (`gp/lightning/module_template.py`) -/

structure PGroup where
  lr : Int
  deriving DecidableEq

/-- A torch optimizer as far as `ExpConfig` observes it: its `param_groups`. -/
structure Optimizer where
  param_groups : List PGroup
  deriving DecidableEq

structure Scheduler where
  T_max : Nat
  deriving DecidableEq

/-- The `lr_scheduler` argument is a dictionary holding the scheduler under
the `"scheduler"` key. -/
structure SchedulerDict where
  scheduler : Scheduler
  deriving DecidableEq

/-- A value assigned to a state-name field: a single string or a list. -/
inductive StrOrList where
  | single (s : String)
  | strs (xs : List String)
  deriving DecidableEq

/-- `train_state_name.setter`: wrap a bare string in a one-element list. -/
def set_train_state_name (value : StrOrList) : List String :=
  match value with
  | StrOrList.single s => [s]
  | StrOrList.strs xs => xs

/-- `val_state_name.setter`. -/
def set_val_state_name (value : StrOrList) : List String :=
  match value with
  | StrOrList.single s => [s]
  | StrOrList.strs xs => xs

/-- `test_state_name.setter`. -/
def set_test_state_name (value : StrOrList) : List String :=
  match value with
  | StrOrList.single s => [s]
  | StrOrList.strs xs => xs

structure ExpConfig where
  name : String
  optimizer : Optimizer
  lr : Int
  T_max : Nat
  opt_params : Option String
  lr_scheduler : Option SchedulerDict
  train_state_name : List String
  val_state_name : List String
  test_state_name : List String
  acc_grad_step : Nat
  dataset_callback : Option String
  deriving DecidableEq

/-- `ExpConfig.__init__`: reads `optimizer.param_groups[0]['lr']` (an
`IndexError` when `param_groups` is empty) and, unconditionally,
`lr_scheduler["scheduler"].T_max` — a `TypeError` when `lr_scheduler` was left
at its default `None`, since `None` is not subscriptable. State-name fields
are assigned through the property setters. -/
def ExpConfig.init (name : String) (optimizer : Optimizer)
    (opt_params : Option String) (lr_scheduler : Option SchedulerDict)
    (dataset_callback : Option String) (acc_grad_step : Nat) :
    Except PyErr ExpConfig :=
  match optimizer.param_groups with
  | [] => Except.error (PyErr.indexError "list index out of range")
  | pg :: _ =>
    match lr_scheduler with
    | none => Except.error (PyErr.typeError "NoneType object is not subscriptable")
    | some sd =>
      Except.ok
        { name := name
          optimizer := optimizer
          lr := pg.lr
          T_max := sd.scheduler.T_max
          opt_params := opt_params
          lr_scheduler := some sd
          train_state_name := set_train_state_name (StrOrList.strs ["train_eval"])
          val_state_name := set_val_state_name (StrOrList.strs ["valid"])
          test_state_name := set_test_state_name (StrOrList.strs ["test"])
          acc_grad_step := acc_grad_step
          dataset_callback := dataset_callback }

/-- Assignment `cfg.train_state_name = value` (routed through the setter). -/
def assign_train_state_name (cfg : ExpConfig) (value : StrOrList) : ExpConfig :=
  { cfg with train_state_name := set_train_state_name value }

/-- Assignment `cfg.val_state_name = value` (routed through the setter). -/
def assign_val_state_name (cfg : ExpConfig) (value : StrOrList) : ExpConfig :=
  { cfg with val_state_name := set_val_state_name value }

/-- Assignment `cfg.test_state_name = value` (routed through the setter). -/
def assign_test_state_name (cfg : ExpConfig) (value : StrOrList) : ExpConfig :=
  { cfg with test_state_name := set_test_state_name value }

/-- C6: the three state-name fields are always lists: a bare string assigned
at construction or later is wrapped in a one-element list, a list is stored as
given; the constructor initializes them to their default lists. -/
theorem c6_state_names_normalized (cfg : ExpConfig) (s : String)
    (xs : List String) (n : String) (pg : PGroup) (pgs : List PGroup)
    (op : Option String) (sd : SchedulerDict) (dc : Option String) (ag : Nat) :
    (assign_train_state_name cfg (StrOrList.single s)).train_state_name = [s] ∧
    (assign_train_state_name cfg (StrOrList.strs xs)).train_state_name = xs ∧
    (assign_val_state_name cfg (StrOrList.single s)).val_state_name = [s] ∧
    (assign_val_state_name cfg (StrOrList.strs xs)).val_state_name = xs ∧
    (assign_test_state_name cfg (StrOrList.single s)).test_state_name = [s] ∧
    (assign_test_state_name cfg (StrOrList.strs xs)).test_state_name = xs ∧
    (ExpConfig.init n (Optimizer.mk (pg :: pgs)) op (some sd) dc ag).toOption.map
      ExpConfig.train_state_name = some ["train_eval"] ∧
    (ExpConfig.init n (Optimizer.mk (pg :: pgs)) op (some sd) dc ag).toOption.map
      ExpConfig.val_state_name = some ["valid"] ∧
    (ExpConfig.init n (Optimizer.mk (pg :: pgs)) op (some sd) dc ag).toOption.map
      ExpConfig.test_state_name = some ["test"] :=
  ⟨rfl, rfl, rfl, rfl, rfl, rfl, rfl, rfl, rfl⟩

/-- C7 is refuted by the code: `ExpConfig.__init__` line 18 subscripts
`lr_scheduler` unconditionally, so constructing with the scheduler left at its
default `None` raises a `TypeError` instead of succeeding; evaluated here at a
valid one-param-group optimizer. -/
theorem c7_init_without_scheduler_raises :
    ExpConfig.init "exp" (Optimizer.mk [PGroup.mk 1]) none none none 1 =
      Except.error (PyErr.typeError "NoneType object is not subscriptable") := rfl

/-- An entry of the dictionary returned by `configure_optimizers`. -/
inductive OptEntry where
  | optEntry (o : Optimizer)
  | schedEntry (s : SchedulerDict)
  deriving DecidableEq

/-- `BaseTemplate.configure_optimizers`: build `{"optimizer": ...}` and add an
`"lr_scheduler"` entry only when the config's scheduler is not `None`; the
method only reads the config, returned unchanged as the second component. -/
def configure_optimizers (cfg : ExpConfig) :
    List (String × OptEntry) × ExpConfig :=
  let optimizer := cfg.optimizer
  let base := [("optimizer", OptEntry.optEntry optimizer)]
  match cfg.lr_scheduler with
  | some sd => (base ++ [("lr_scheduler", OptEntry.schedEntry sd)], cfg)
  | none => (base, cfg)

/-- C10: the returned dictionary maps `"optimizer"` to the stored optimizer,
contains an `"lr_scheduler"` entry exactly when the stored scheduler is not
`None` (and then it is that scheduler), and the config is unchanged. -/
theorem c10_configure_optimizers (cfg : ExpConfig) :
    (configure_optimizers cfg).1.lookup "optimizer" =
      some (OptEntry.optEntry cfg.optimizer) ∧
    (configure_optimizers cfg).1.lookup "lr_scheduler" =
      cfg.lr_scheduler.map OptEntry.schedEntry ∧
    (configure_optimizers cfg).2 = cfg := by
  cases h : cfg.lr_scheduler with
  | none => simp [configure_optimizers, h, List.lookup]
  | some sd => simp [configure_optimizers, h, List.lookup]

/-- `torch.tensor([0])`: the zero loss substituted for an OOM batch. -/
def zero_loss : PTensor :=
  { dtype := DType.int64, data := [0] }

/-- Python's `"out of memory" in str(e)` substring test. -/
def str_contains (s pat : String) : Bool :=
  decide (1 < (s.splitOn pat).length)

/-- Does `except RuntimeError as e: if "out of memory" in str(e)` catch this
exception? -/
def oom_catch : PyErr → Bool
  | PyErr.runtimeError msg => str_contains msg "out of memory"
  | _ => false

/-- `BaseTemplate.training_step` around the outcome of `compute_results`
(which yields a `(score, loss)` pair or raises): a `RuntimeError` whose
message mentions out-of-memory is swallowed and a zero loss returned; any
other exception is re-raised. -/
def training_step (result : Except PyErr (PTensor × PTensor)) :
    Except PyErr PTensor :=
  match result with
  | Except.ok (_, loss) => Except.ok loss
  | Except.error e =>
    match e with
    | PyErr.runtimeError msg =>
      if str_contains msg "out of memory" then Except.ok zero_loss
      else Except.error (PyErr.runtimeError msg)
    | e' => Except.error e'

/-- C3: when `compute_results` raises an out-of-memory `RuntimeError`,
`training_step` returns the zero loss `tensor([0])` instead of propagating;
any other exception is re-raised, and a normal result returns its loss. -/
theorem c3_training_step_oom (e : PyErr) (score loss : PTensor) :
    training_step (Except.error e) =
      (if oom_catch e then Except.ok zero_loss else Except.error e) ∧
    training_step (Except.ok (score, loss)) = Except.ok loss := by
  refine ⟨?_, rfl⟩
  cases e with
  | runtimeError msg => simp [training_step, oom_catch]
  | assertionError => rfl
  | typeError m => rfl
  | indexError m => rfl
  | notImplementedError m => rfl
  | otherError m => rfl
